import Mathlib

/-!
Verification of the constexpr_mlp numeric core.

The C++ sources (math.hpp, matrix.hpp, neural.hpp, mlp.hpp) are embedded
shallowly.  The element type `double` is modelled by exact rationals `ℚ`
(real arithmetic; Lean's convention `q / 0 = 0` stands in for the C++
undefined/NaN division, which no verified statement depends on).  Fixed-size
arrays `std::array<T, M>` become functions `Fin M → T`; loops that fill every
cell of an output array independently become the pointwise function of the
indices, and accumulating loops become left folds over the index list in
increasing order, preserving the source's evaluation order.
-/

namespace MLP

/-! ### matrix.hpp: vec and mat -/

/-- vec<T, M> = std::array<T, M>. -/
abbrev vec (α : Type) (M : Nat) : Type := Fin M → α

/-- mat<T, M, N> = vec<vec<T, N>, M>, exactly as in the source. -/
abbrev mat (α : Type) (M N : Nat) : Type := vec (vec α N) M

/-- fmap(f, v) for vectors: apply f elementwise (loop over i). -/
def fmap {α β : Type} {M : Nat} (f : α → β) (a : vec α M) : vec β M :=
  fun i => f (a i)

/-- zip(f, a, b) for vectors: elementwise binary combine (loop over i).
Applied to two matrices it combines row by row, exactly as C++ overload
resolution does in the matrix loss. -/
def zip {α β γ : Type} {M : Nat} (f : α → β → γ) (a : vec α M) (b : vec β M) :
    vec γ M :=
  fun i => f (a i) (b i)

/-- fold(f, z, x): left fold over elements in increasing index order; the
empty vector returns the seed, matching the `if constexpr (M == 0)` branch. -/
def fold {α β : Type} {M : Nat} (f : α → β → α) (z : α) (x : vec β M) : α :=
  (List.finRange M).foldl (fun r i => f r (x i)) z

/-- operator+(vec, vec). -/
def vadd {M : Nat} (a b : vec ℚ M) : vec ℚ M :=
  zip (fun a_m b_m => a_m + b_m) a b

/-- operator-(vec, vec). -/
def vsub {M : Nat} (a b : vec ℚ M) : vec ℚ M :=
  zip (fun a_m b_m => a_m - b_m) a b

/-- operator*(vec, scalar). -/
def vscale {M : Nat} (a : vec ℚ M) (b : ℚ) : vec ℚ M :=
  fmap (fun a_m => a_m * b) a

/-- fmap(f, m) for matrices (double loop over i, j). -/
def fmapM {α β : Type} {M N : Nat} (f : α → β) (a : mat α M N) : mat β M N :=
  fun i j => f (a i j)

/-- zip(f, a, b) for matrices (double loop over i, j). -/
def zipM {α β γ : Type} {M N : Nat} (f : α → β → γ) (a : mat α M N)
    (b : mat β M N) : mat γ M N :=
  fun i j => f (a i j) (b i j)

/-- operator-(mat, mat). -/
def matSub {M N : Nat} (a b : mat ℚ M N) : mat ℚ M N :=
  zipM (fun a_m b_m => a_m - b_m) a b

/-- operator*(mat, scalar). -/
def matScale {M N : Nat} (a : mat ℚ M N) (b : ℚ) : mat ℚ M N :=
  fmapM (fun a_m => a_m * b) a

/-- operator*(mat<A,M,N>, vec<B,N>): matrix-vector product.  The C++ loop
zero-initialises c and accumulates c[i] += a[i][j] * b[j] for j in increasing
order; we fold over the same index order starting from 0. -/
def matvec {M N : Nat} (a : mat ℚ M N) (b : vec ℚ N) : vec ℚ M :=
  fun i => (List.finRange N).foldl (fun c j => c + a i j * b j) 0

/-- operator*(vec<A,M>, mat<B,1,N>): outer product, c[i][j] = a[i] * b[0][j]. -/
def outer {M N : Nat} (a : vec ℚ M) (b : mat ℚ 1 N) : mat ℚ M N :=
  fun i j => a i * b 0 j

/-- operator+(vec<A,M>, mat<B,M,1>): c[i] = a[i] + b[i][0]. -/
def vecAddMat {M : Nat} (a : vec ℚ M) (b : mat ℚ M 1) : vec ℚ M :=
  fun i => a i + b i 0

/-- operator-(vec<A,M>, mat<B,M,1>): c[i] = a[i] - b[i][0]. -/
def vecSubMat {M : Nat} (a : vec ℚ M) (b : mat ℚ M 1) : vec ℚ M :=
  fun i => a i - b i 0

/-- operator+(mat<A,M,1>, vec<B,M>): the source returns `b + a`. -/
def matAddVec {M : Nat} (a : mat ℚ M 1) (b : vec ℚ M) : vec ℚ M :=
  vecAddMat b a

/-- operator-(mat<A,M,1>, vec<B,M>): the source returns `b - a` (sic), i.e.
it delegates to the vec-minus-mat overload without negating. -/
def matSubVec {M : Nat} (a : mat ℚ M 1) (b : vec ℚ M) : vec ℚ M :=
  vecSubMat b a

/-- transpose(vec<T,M>): the single-row matrix {{v}}. -/
def transposeVec {α : Type} {M : Nat} (v : vec α M) : mat α 1 M :=
  fun _ i => v i

/-- transpose(mat<T,M,N>): a_t[j][i] = a[i][j]. -/
def transpose {α : Type} {M N : Nat} (a : mat α M N) : mat α N M :=
  fun j i => a i j

/-! ### math.hpp: pow, exp, ln -/

/-- Body of pow's squaring loop `for (; n > 0; n /= 2)`, made structurally
recursive on a fuel argument; fuel n suffices because n at least halves every
iteration.  State: x (the repeatedly squared base) and x_n (the accumulator,
initialised to 1.0 in the source). -/
def powLoopF : Nat → ℚ → ℚ → Nat → ℚ
  | 0, _, x_n, _ => x_n
  | fuel + 1, x, x_n, n =>
    if n = 0 then x_n
    else powLoopF fuel (x * x) (if n % 2 = 1 then x_n * x else x_n) (n / 2)

/-- pow(T x, int n): binary exponentiation; n = 0 gives 1, negative n gives
1 / pow(x, -n). -/
def pow (x : ℚ) (n : Int) : ℚ :=
  if n = 0 then 1
  else if n < 0 then 1 / powLoopF (-n).toNat x 1 (-n).toNat
  else powLoopF n.toNat x 1 n.toNat

/-- The non-recursive branch of exp: the 19-step Taylor loop
`for (n = 1; n < 20; ++n) e_x += (last *= x / n)` starting from
e_x = 1, last = 1. -/
def expTaylor (x : ℚ) : ℚ :=
  ((List.range 19).foldl
    (fun (p : ℚ × ℚ) k =>
      let last := p.2 * (x / ((k : ℚ) + 1))
      (p.1 + last, last))
    (1, 1)).1

/-- exp with explicit fuel for the range-reduction recursion
`if (x < -3.0 || 3.0 < x) return pow(exp(x / 2.0), 2)`: each recursive step
halves x; `none` means the fuel ran out before the Taylor branch was
reached. -/
def expFuel : Nat → ℚ → Option ℚ
  | 0, x =>
    if x < -3 ∨ 3 < x then none else some (expTaylor x)
  | fuel + 1, x =>
    if x < -3 ∨ 3 < x then (expFuel fuel (x / 2)).map (fun e => pow e 2)
    else some (expTaylor x)

/-- exp(double x): the fuel |x.num| is always sufficient (proved in
expFuel_num_isSome below), so the default is never taken and this is the
unique fixpoint of the source's recursion. -/
def exp (x : ℚ) : ℚ :=
  (expFuel x.num.natAbs x).getD 0

/-- The Newton iteration inside ln, after the domain check: l_x = 0,
last = 2, and ten times last = (l_x += 2 * (x - exp(last)) / (x + exp(last))). -/
def lnLoop (x : ℚ) : ℚ :=
  ((List.range 10).foldl
    (fun (p : ℚ × ℚ) _ =>
      let e_last := exp p.2
      let l_x := p.1 + 2 * (x - e_last) / (x + e_last)
      (l_x, l_x))
    (0, 2)).1

/-- ln(double x): throws std::invalid_argument("ln(negative)") when x < 0,
otherwise runs the Newton loop.  The throw is modelled by Except.error. -/
def ln (x : ℚ) : Except String ℚ :=
  if x < 0 then Except.error "ln(negative)" else Except.ok (lnLoop x)

/-! ### neural.hpp: activations, losses and their derivatives -/

/-- enum class act. -/
inductive act : Type
  | Linear
  | ReLU
  | Sigmoid
  | Tanh
deriving DecidableEq

/-- activation<A>(double x), the scalar template. -/
def activationA : act → ℚ → ℚ
  | act.Linear, x => x
  | act.ReLU, x => max 0 x
  | act.Sigmoid, x => 1 / (1 + exp (-x))
  | act.Tanh, x => 2 / (1 + exp (-2 * x)) - 1

/-- activation(act f, vec x): switch on f, then fmap the scalar template. -/
def activationV {M : Nat} (f : act) (x : vec ℚ M) : vec ℚ M :=
  match f with
  | act.Linear => fmap (activationA act.Linear) x
  | act.ReLU => fmap (activationA act.ReLU) x
  | act.Sigmoid => fmap (activationA act.Sigmoid) x
  | act.Tanh => fmap (activationA act.Tanh) x

/-- derivative<A>(double x), the scalar activation derivative template. -/
def derivativeA : act → ℚ → ℚ
  | act.Linear, _ => 1
  | act.ReLU, x => if x < 0 then 0 else 1
  | act.Sigmoid, x => (fun a => a * (1 - a)) (activationA act.Sigmoid x)
  | act.Tanh, x => 1 - pow (activationA act.Tanh x) 2

/-- derivative(act f, vec x): switch on f, then fmap the scalar template. -/
def derivativeV {M : Nat} (f : act) (x : vec ℚ M) : vec ℚ M :=
  match f with
  | act.Linear => fmap (derivativeA act.Linear) x
  | act.ReLU => fmap (derivativeA act.ReLU) x
  | act.Sigmoid => fmap (derivativeA act.Sigmoid) x
  | act.Tanh => fmap (derivativeA act.Tanh) x

/-- enum class lossf. -/
inductive lossf : Type
  | MSE
  | LogLoss
deriving DecidableEq

/-- loss<L>(double y_real, double y_pred), the scalar template.  The C++
LogLoss branch calls the throwing ln; here lnLoop is the value it computes on
in-domain arguments (the domain check is modelled separately on ln). -/
def lossA : lossf → ℚ → ℚ → ℚ
  | lossf.MSE, y_real, y_pred => pow (y_real - y_pred) 2
  | lossf.LogLoss, y_real, y_pred =>
    y_real * lnLoop y_pred + (1 - y_real) * lnLoop (1 - y_pred)

/-- loss(lossf f, vec y_real, vec y_pred): the per-sample vector loss; the
elementwise losses are summed and divided by M for MSE and by -M for
LogLoss. -/
def lossVec {M : Nat} (f : lossf) (y_real y_pred : vec ℚ M) : ℚ :=
  match f with
  | lossf.MSE =>
    fold (fun r s => r + s) 0 (zip (lossA lossf.MSE) y_real y_pred) / (M : ℚ)
  | lossf.LogLoss =>
    fold (fun r s => r + s) 0 (zip (lossA lossf.LogLoss) y_real y_pred) /
      (-(M : ℚ))

/-- loss(lossf f, mat y_real, mat y_pred): the batch loss; the vec-level zip
combines the matrices row by row, the per-row vector losses are summed, and
the sum is divided by N, the column count of the matrices. -/
def lossMat {M N : Nat} (f : lossf) (y_real y_pred : mat ℚ M N) : ℚ :=
  fold (fun r s => r + s) 0
    (zip (fun y_r y_p => lossVec f y_r y_p) y_real y_pred) / (N : ℚ)

/-- derivative<L>(double y_real, double y_pred), the scalar loss derivative
template. -/
def derivativeLA : lossf → ℚ → ℚ → ℚ
  | lossf.MSE, y_real, y_pred => -2 * (y_real - y_pred)
  | lossf.LogLoss, y_real, y_pred =>
    (y_pred - y_real) / (y_pred * (1 - y_pred))

/-- derivative(lossf f, vec y_real, vec y_pred): switch on f, then zip the
scalar template. -/
def derivativeLV {M : Nat} (f : lossf) (y_real y_pred : vec ℚ M) : vec ℚ M :=
  match f with
  | lossf.MSE => zip (derivativeLA lossf.MSE) y_real y_pred
  | lossf.LogLoss => zip (derivativeLA lossf.LogLoss) y_real y_pred

/-! ### mlp.hpp: layer, network, backpropagation, fit -/

/-- struct layer<I, O> { act a; mat<double, O, I> w; vec<double, O> b; }. -/
@[ext]
structure layer (I O : Nat) : Type where
  a : act
  w : mat ℚ O I
  b : vec ℚ O

/-- operator>>(vec<double,I>, layer<I,O>): activation(l.a, l.w * x + l.b). -/
def forwardL {I O : Nat} (x : vec ℚ I) (l : layer I O) : vec ℚ O :=
  activationV l.a (vadd (matvec l.w x) l.b)

/-- mlp<Ls...>, the std::tuple of layers with statically matching adjacent
widths, as an inductive chain: a one-layer tuple, or a layer consed onto a
tuple whose input width equals the layer's output width. -/
inductive net : Nat → Nat → Type
  | single : {I O : Nat} → layer I O → net I O
  | cons : {I H O : Nat} → layer I H → net H O → net I O

/-- The output width of a network's first layer (the layer std::get<L> sees
at the current recursion level); this is the length of the delta vector that
backpropagate<L> returns. -/
def headDim {I O : Nat} (nn : net I O) : Nat :=
  match nn with
  | net.single _ => O
  | @net.cons _ H _ _ _ => H

/-- The weight matrix of a network's first layer (std::get<L+1>(net).w as
seen from level L). -/
def headW {I O : Nat} (nn : net I O) : mat ℚ (headDim nn) I :=
  match nn with
  | net.single l => l.w
  | net.cons l _ => l.w

/-- struct fitparms { std::size_t epochs; double rate; lossf loss; }. -/
structure fitparms : Type where
  epochs : Nat
  rate : ℚ
  loss : lossf

/-- backpropagate<L>(net, par, x, y): the single-sample recursive step of
mlp.hpp.  The in-place mutation of the tuple is made explicit: the result is
the updated suffix of the network paired with the delta the C++ function
returns.  Statement order is preserved: in the cons case w_next is the
transpose of the NEXT layer's weights taken from the incoming network,
fetched before the recursive call that updates that layer, and the current
layer's w and b are overwritten only after its delta has been combined. -/
def backpropagate (par : fitparms) : {I O : Nat} → (nn : net I O) →
    vec ℚ I → vec ℚ O → net I O × vec ℚ (headDim nn)
  | _, _, net.single l, x, y =>
    let z := vadd (matvec l.w x) l.b
    let a := activationV l.a z
    let delta := zip (fun u v => u * v) (derivativeV l.a z)
      (derivativeLV par.loss y a)
    (net.single
      { l with
        w := matSub l.w (matScale (outer delta (transposeVec x)) par.rate)
        b := vsub l.b (vscale delta par.rate) }, delta)
  | _, _, net.cons l rest, x, y =>
    let z := vadd (matvec l.w x) l.b
    let a := activationV l.a z
    let w_next := transpose (headW rest)
    let r := backpropagate par rest a y
    let delta := zip (fun u v => u * v) (derivativeV l.a z)
      (matvec w_next r.2)
    (net.cons
      { l with
        w := matSub l.w (matScale (outer delta (transposeVec x)) par.rate)
        b := vsub l.b (vscale delta par.rate) } r.1, delta)

/-- fit(net, par, x, y): for each epoch, for each sample row n in order,
run one backpropagation step on the accumulated network; the deltas are
discarded.  epochs = 0 runs no iterations and returns the copy unchanged. -/
def fit {N I O : Nat} (par : fitparms) (nn : net I O) (x : mat ℚ N I)
    (y : mat ℚ N O) : net I O :=
  (List.range par.epochs).foldl
    (fun enet _ =>
      (List.finRange N).foldl
        (fun fnet n => (backpropagate par fnet (x n) (y n)).1) enet)
    nn

/-! ### Reference definitions used to state the backpropagation claims -/

/-- The delta recursion of §4.5 written as a pure function of the INCOMING
network: no weight is ever updated here, so every layer's delta is expressed
in terms of the weights as they stood before any update of this sample
step. -/
def calcDelta (par : fitparms) : {I O : Nat} → (nn : net I O) →
    vec ℚ I → vec ℚ O → vec ℚ (headDim nn)
  | _, _, net.single l, x, y =>
    let z := vadd (matvec l.w x) l.b
    zip (fun u v => u * v) (derivativeV l.a z)
      (derivativeLV par.loss y (activationV l.a z))
  | _, _, net.cons l rest, x, y =>
    let z := vadd (matvec l.w x) l.b
    zip (fun u v => u * v) (derivativeV l.a z)
      (matvec (transpose (headW rest))
        (calcDelta par rest (activationV l.a z) y))

/-- Spec-side layer update (§4.5 step 4, stated from the spec's words):
W_L[i][j] -= rate · (delta_L[i] · x_L[j]) and b_L[i] -= rate · delta_L[i],
with the activation kind untouched. -/
def updLayerSpec {I O : Nat} (l : layer I O) (delta : vec ℚ O) (x : vec ℚ I)
    (rate : ℚ) : layer I O :=
  { a := l.a
    w := fun i j => l.w i j - rate * (delta i * x j)
    b := fun i => l.b i - rate * delta i }

/-- Spec-side description of the whole single-sample step: every layer L is
replaced by updLayerSpec applied to that layer's own delta (computed by
calcDelta from the pre-update weights) and to the input x_L that the forward
computation feeds it. -/
def updateSpecNet (par : fitparms) : {I O : Nat} → (nn : net I O) →
    vec ℚ I → vec ℚ O → net I O
  | _, _, net.single l, x, y =>
    net.single (updLayerSpec l (calcDelta par (net.single l) x y) x par.rate)
  | _, _, net.cons l rest, x, y =>
    net.cons (updLayerSpec l (calcDelta par (net.cons l rest) x y) x par.rate)
      (updateSpecNet par rest (forwardL x l) y)

/-- The topology of a network: for every layer in order, its input width,
output width and activation kind.  Weights and biases are not recorded. -/
def shape : {I O : Nat} → net I O → List (Nat × Nat × act)
  | I, O, net.single l => [(I, O, l.a)]
  | I, _, @net.cons _ H _ l rest => (I, H, l.a) :: shape rest

/-! ### Concrete inputs for the counterexample evaluations -/

/-- The 1x1 matrix {{2}}. -/
def cexM : mat ℚ 1 1 := fun _ _ => 2

/-- The length-1 vector {5}. -/
def cexV : vec ℚ 1 := fun _ => 5

/-- A 2x1 target batch, both rows {0}. -/
def cexReal : mat ℚ 2 1 := fun _ _ => 0

/-- A 2x1 prediction batch, both rows {1}. -/
def cexPred : mat ℚ 2 1 := fun _ _ => 1

/-! ### Helper lemmas -/

/-- Left-folding rational addition over a list of indices accumulates the sum
of the mapped values on top of the seed. -/
theorem foldl_add_shift {M : Nat} (v : vec ℚ M) :
    ∀ (l : List (Fin M)) (c : ℚ),
      List.foldl (fun r i => r + v i) c l = c + (l.map v).sum
  | [], c => by simp
  | i :: t, c => by
    simp only [List.foldl_cons, List.map_cons, List.sum_cons]
    rw [foldl_add_shift v t]
    ring

/-- The source's fold with rational addition and seed 0 is the finite sum of
the vector's entries. -/
theorem fold_add_eq_sum {M : Nat} (v : vec ℚ M) :
    fold (fun r s => r + s) 0 v = ∑ i, v i := by
  unfold fold
  rw [foldl_add_shift, zero_add, Fin.sum_univ_def]

/-- With fuel n, expFuel reaches the Taylor branch whenever |x| ≤ 2 ^ n:
every recursive step halves x. -/
theorem expFuel_isSome_of_abs_le :
    ∀ (n : Nat) (x : ℚ), |x| ≤ 2 ^ n → (expFuel n x).isSome = true
  | 0, x, h => by
    have h1 := abs_le.mp h
    have hc : ¬(x < -3 ∨ 3 < x) := by
      rintro (hc | hc)
      · have : (-1 : ℚ) ≤ x := by linarith [h1.1]
        linarith
      · have : x ≤ (1 : ℚ) := by linarith [h1.2]
        linarith
    simp [expFuel, hc]
  | n + 1, x, h => by
    by_cases hc : x < -3 ∨ 3 < x
    · have habs : |x / 2| = |x| / 2 := by
        rw [abs_div, abs_two]
      have hle : |x / 2| ≤ 2 ^ n := by
        rw [habs]
        rw [pow_succ] at h
        linarith
      have hs := expFuel_isSome_of_abs_le n (x / 2) hle
      rcases Option.isSome_iff_exists.mp hs with ⟨v, hv⟩
      simp [expFuel, hc, hv]
    · simp [expFuel, hc]

/-- The fuel |x.num| used in the definition of exp is always sufficient, so
exp never takes the getD default. -/
theorem expFuel_num_isSome (x : ℚ) : (expFuel x.num.natAbs x).isSome = true := by
  apply expFuel_isSome_of_abs_le
  have hden1 : (1 : ℚ) ≤ (x.den : ℚ) := by
    have : (1 : ℕ) ≤ x.den := x.den_pos
    exact_mod_cast this
  have h1 : |x| ≤ (x.num.natAbs : ℚ) := by
    calc |x| = |(x.num : ℚ) / (x.den : ℚ)| := by rw [Rat.num_div_den]
    _ = |(x.num : ℚ)| / |(x.den : ℚ)| := by rw [abs_div]
    _ = |(x.num : ℚ)| / (x.den : ℚ) := by
        rw [abs_of_pos (by linarith : (0 : ℚ) < (x.den : ℚ))]
    _ ≤ |(x.num : ℚ)| := by
        apply div_le_self (abs_nonneg _) hden1
    _ = (x.num.natAbs : ℚ) := by rw [Int.cast_natAbs, Int.cast_abs]
  have h2 : ((x.num.natAbs : ℕ) : ℚ) ≤ 2 ^ x.num.natAbs := by
    exact_mod_cast (Nat.lt_two_pow x.num.natAbs).le
  exact h1.trans h2

/-- The batch loss is the sum of the per-row vector losses divided by the
column count of the matrices. -/
theorem lossMat_eq_sum {M N : Nat} (f : lossf) (y_real y_pred : mat ℚ M N) :
    lossMat f y_real y_pred =
      (∑ i, lossVec f (y_real i) (y_pred i)) / (N : ℚ) := by
  unfold lossMat
  rw [fold_add_eq_sum]
  rfl

/-- The MSE vector loss is the positive mean of the elementwise losses. -/
theorem lossVec_MSE_eq {N : Nat} (r p : vec ℚ N) :
    lossVec lossf.MSE r p = (∑ j, lossA lossf.MSE (r j) (p j)) / (N : ℚ) := by
  show fold (fun a b => a + b) 0 (zip (lossA lossf.MSE) r p) / (N : ℚ) = _
  rw [fold_add_eq_sum]
  rfl

/-- The LogLoss vector loss is the negative mean of the elementwise
losses. -/
theorem lossVec_LogLoss_eq {N : Nat} (r p : vec ℚ N) :
    lossVec lossf.LogLoss r p =
      -((∑ j, lossA lossf.LogLoss (r j) (p j)) / (N : ℚ)) := by
  show fold (fun a b => a + b) 0 (zip (lossA lossf.LogLoss) r p) /
      (-(N : ℚ)) = _
  rw [fold_add_eq_sum, div_neg]
  rfl

/-- The squaring loop of pow at exponent 2 squares its argument once. -/
theorem pow_sq (x : ℚ) : pow x 2 = 1 * (x * x) := rfl

/-- The delta that backpropagate returns at each level is the pure delta
computed from the incoming (not-yet-updated) weights: the weight updates
performed inside the recursion never feed back into any delta of the same
sample step. -/
theorem backpropagate_snd_eq_calcDelta (par : fitparms) :
    ∀ {I O : Nat} (nn : net I O) (x : vec ℚ I) (y : vec ℚ O),
      (backpropagate par nn x y).2 = calcDelta par nn x y := by
  intro I O nn
  induction nn with
  | single l => intro x y; rfl
  | cons l rest ih =>
    intro x y
    simp only [backpropagate, calcDelta]
    rw [ih]

/-- One backpropagation step leaves the topology of the network unchanged. -/
theorem shape_backpropagate (par : fitparms) :
    ∀ {I O : Nat} (nn : net I O) (x : vec ℚ I) (y : vec ℚ O),
      shape (backpropagate par nn x y).1 = shape nn := by
  intro I O nn
  induction nn with
  | single l => intro x y; rfl
  | cons l rest ih =>
    intro x y
    simp only [backpropagate, shape]
    rw [ih]

/-- Folding backpropagation steps over any list of sample rows leaves the
topology unchanged. -/
theorem shape_foldl_backpropagate (par : fitparms) {N I O : Nat}
    (x : mat ℚ N I) (y : mat ℚ N O) :
    ∀ (l : List (Fin N)) (nn : net I O),
      shape (l.foldl (fun fnet n => (backpropagate par fnet (x n) (y n)).1) nn)
        = shape nn
  | [], _ => rfl
  | n :: t, nn => by
    simp only [List.foldl_cons]
    rw [shape_foldl_backpropagate par x y t, shape_backpropagate]

/-! ### The claims -/

/-- C1: evaluation of the mixed subtraction at the failing input.  For the
1x1 matrix a = {{2}} and the vector b = {5}, the matrix-minus-vector
overload returns b[0] - a[0][0] = 3, whereas treating the Mx1 matrix as
interchangeable with the vector demands a[0][0] - b[0] = -3; the
vector-minus-matrix direction b - a is computed as claimed. -/
theorem matSubVec_eval :
    matSubVec cexM cexV 0 = 3 ∧ cexM 0 0 - cexV 0 = -3 ∧
      vecSubMat cexV cexM 0 = 3 := by
  refine ⟨?_, ?_, ?_⟩ <;> norm_num [matSubVec, vecSubMat, cexM, cexV]

/-- C2 counterexample: for the 2x1 batches with targets {0},{0} and
predictions {1},{1} under MSE, the batch loss is 2 (the per-row losses sum
to 2 and are divided by the column count 1), not the mean 1 over the two
rows that the claim predicts. -/
theorem lossMat_not_row_mean :
    ¬ (lossMat lossf.MSE cexReal cexPred =
        (lossVec lossf.MSE (cexReal 0) (cexPred 0) +
          lossVec lossf.MSE (cexReal 1) (cexPred 1)) / 2) := by
  have hrow : ∀ i : Fin 2, lossVec lossf.MSE (cexReal i) (cexPred i) = 1 := by
    intro i
    rw [lossVec_MSE_eq, Fin.sum_univ_one]
    norm_num [cexReal, cexPred, lossA, pow_sq]
  intro h
  rw [lossMat_eq_sum, Fin.sum_univ_two, hrow 0, hrow 1] at h
  norm_num at h

/-- C2 (amended): the batch loss is the sum of the M per-row vector losses
divided by the COLUMN count N, and the per-row vector loss is the (positive
for MSE, negative for LogLoss) mean of the elementwise losses over the N
elements of the row. -/
theorem lossMat_row_sum_div_cols {M N : Nat} (f : lossf)
    (y_real y_pred : mat ℚ M N) :
    lossMat f y_real y_pred =
      (∑ i, lossVec f (y_real i) (y_pred i)) / (N : ℚ) ∧
    (∀ r p : vec ℚ N,
      lossVec lossf.MSE r p = (∑ j, lossA lossf.MSE (r j) (p j)) / (N : ℚ) ∧
      lossVec lossf.LogLoss r p =
        -((∑ j, lossA lossf.LogLoss (r j) (p j)) / (N : ℚ))) :=
  ⟨lossMat_eq_sum f y_real y_pred,
    fun r p => ⟨lossVec_MSE_eq r p, lossVec_LogLoss_eq r p⟩⟩

/-- C3: in the single-sample step, a non-last layer's delta is the
elementwise product of its activation derivative at z with
transpose(W_next) · delta_next, where W_next is the next layer's weight
matrix taken from the INCOMING network (before the recursive call updates
that layer) and delta_next is the pure delta of the tail computed from those
same pre-update weights. -/
theorem backpropagate_inner_delta_preupdate (par : fitparms) {I H O : Nat}
    (l : layer I H) (rest : net H O) (x : vec ℚ I) (y : vec ℚ O) :
    (backpropagate par (net.cons l rest) x y).2 =
      zip (fun u v => u * v) (derivativeV l.a (vadd (matvec l.w x) l.b))
        (matvec (transpose (headW rest))
          (calcDelta par rest
            (activationV l.a (vadd (matvec l.w x) l.b)) y)) := by
  simp only [backpropagate]
  rw [backpropagate_snd_eq_calcDelta]

/-- C4: the last layer's delta is the elementwise product of the raw
activation derivative at the pre-activation z with the raw loss derivative
at the activation a, for every activation kind l.a and every loss kind
par.loss. -/
theorem backpropagate_last_delta (par : fitparms) {I O : Nat} (l : layer I O)
    (x : vec ℚ I) (y : vec ℚ O) :
    (backpropagate par (net.single l) x y).2 =
      zip (fun u v => u * v) (derivativeV l.a (vadd (matvec l.w x) l.b))
        (derivativeLV par.loss y
          (activationV l.a (vadd (matvec l.w x) l.b))) := rfl

/-- C5: the updated network produced by one backpropagation step is exactly
the spec's description: every layer L becomes
W_L[i][j] - rate·(delta_L[i]·x_L[j]) and b_L[i] - rate·delta_L[i], where
delta_L is that layer's delta and x_L is the input the forward computation
feeds to layer L on this sample. -/
theorem backpropagate_updates_spec (par : fitparms) :
    ∀ {I O : Nat} (nn : net I O) (x : vec ℚ I) (y : vec ℚ O),
      (backpropagate par nn x y).1 = updateSpecNet par nn x y := by
  intro I O nn
  induction nn with
  | single l =>
    intro x y
    simp only [backpropagate, updateSpecNet, calcDelta, updLayerSpec]
    congr 1
    ext i j
    · rfl
    · show matSub l.w (matScale (outer _ (transposeVec x)) par.rate) i j = _
      simp only [matSub, matScale, outer, transposeVec, zipM, fmapM]
      ring
    · show vsub l.b (vscale _ par.rate) i = _
      simp only [vsub, vscale, zip, fmap]
      ring
  | cons l rest ih =>
    intro x y
    simp only [backpropagate, updateSpecNet, calcDelta, updLayerSpec, forwardL]
    rw [backpropagate_snd_eq_calcDelta, ih]
    congr 1
    ext i j
    · rfl
    · show matSub l.w (matScale (outer _ (transposeVec x)) par.rate) i j = _
      simp only [matSub, matScale, outer, transposeVec, zipM, fmapM]
      ring
    · show vsub l.b (vscale _ par.rate) i = _
      simp only [vsub, vscale, zip, fmap]
      ring

/-- C6: training preserves the topology: the fitted network has the same
list of (input width, output width, activation kind) triples, layer for
layer, as the input network; only weights and biases can change. -/
theorem fit_preserves_shape (par : fitparms) {N I O : Nat} (nn : net I O)
    (x : mat ℚ N I) (y : mat ℚ N O) :
    shape (fit par nn x y) = shape nn := by
  unfold fit
  generalize List.range par.epochs = eps
  induction eps generalizing nn with
  | nil => rfl
  | cons e t ih =>
    simp only [List.foldl_cons]
    rw [ih, shape_foldl_backpropagate]

/-- C7: fitting with epochs = 0 runs no update at all and returns the input
network itself. -/
theorem fit_zero_epochs {N I O : Nat} (rate : ℚ) (lf : lossf) (nn : net I O)
    (x : mat ℚ N I) (y : mat ℚ N O) :
    fit ⟨0, rate, lf⟩ nn x y = nn := rfl

/-- C8: ln returns a value exactly on the nonnegative inputs (0 included)
and raises the invalid-argument error exactly on the negative inputs; the
error is the function's result, not recovered internally. -/
theorem ln_ok_iff_nonneg (x : ℚ) :
    ((∃ v, ln x = Except.ok v) ↔ 0 ≤ x) ∧
      (ln x = Except.error "ln(negative)" ↔ x < 0) := by
  unfold ln
  rcases lt_or_le x 0 with h | h
  · rw [if_pos h]
    constructor
    · simp [not_le.mpr h]
    · simp [h]
  · rw [if_neg (not_lt.mpr h)]
    constructor
    · simp [h]
    · simp [not_lt.mpr h]

/-- C9: transpose is an involution on matrices. -/
theorem transpose_transpose {α : Type} {M N : Nat} (a : mat α M N) :
    transpose (transpose a) = a := rfl

/-- C10: the range-reduction recursion of exp terminates on every input:
for every rational x some finite fuel suffices for the halving recursion to
reach the non-recursive Taylor branch, so exp is a total function. -/
theorem exp_range_reduction_terminates (x : ℚ) :
    ∃ n, (expFuel n x).isSome = true := by
  obtain ⟨k, hk⟩ := exists_nat_ge |x|
  refine ⟨k, expFuel_isSome_of_abs_le k x (hk.trans ?_)⟩
  exact_mod_cast (Nat.lt_two_pow k).le

end MLP
